import Mathlib

/-!
Verification of the polygon annotation tool in `labeling_tool.py`
(naillian_segmentation_tool).

The development shallowly embeds the state held by `ImageLabel` and
`SegmentationTool` and the operations acting on it:

* `setImage`, `mousePressEvent` (ImageLabel, lines 26-46)
* `load_image` (SegmentationTool, lines 174-189)
* `undo_last_point`, `finalize_polygon` (SegmentationTool, lines 199-222)
* the mask rasterization in `save_mask` (lines 240-250); the fill itself
  is performed by the external library call `cv2.fillPoly`, so the fill
  semantics is modelled from the spec (even-odd scanline fill with
  boundary pixels included)
* the geometry exporter, which does not appear in the source and is
  modelled from the spec.

Python lists are modelled as Lean lists; machine integers are `Int`/`Nat`
(coordinates are small GUI pixel coordinates, far from any overflow);
floating-point scale factors are modelled as exact rationals. A separate
heap-based model (`Alias` namespace) captures the reference/aliasing
semantics of Python lists, to reason about the `.copy()` on finalize.
-/

/-- A click point in display coordinates, as stored in
`current_polygon` (a Python tuple `(x, y)`). -/
abbrev Point := Int × Int

/-- A finalized polygon: the dict `{"points": [...]}` built in
`finalize_polygon` (line 217-219). -/
structure PolygonData where
  points : List Point
deriving DecidableEq, Repr

/-- The mutable state of the tool relevant to the claims: the fields of
`ImageLabel` (`polygons`, `current_polygon`, `mouse_position`, and the
pixmap it displays, recorded by its width and height) together with
`SegmentationTool.current_image_path`. -/
structure ToolState where
  current_image_path : Option String
  pixmap : Option (Nat × Nat)
  polygons : List PolygonData
  current_polygon : List Point
  mouse_position : Option Point
deriving DecidableEq, Repr

/-- Errors surfaced to the user through `QMessageBox.warning`. -/
inductive ToolError where
  | insufficientPoints
  | decodeError
deriving DecidableEq, Repr

/-- `ImageLabel.setImage` (lines 26-37): displays the converted image as
the new pixmap and resets `polygons`, `current_polygon` and
`mouse_position`. Only the pixel dimensions of the displayed image
matter to the claims. -/
def setImage (s : ToolState) (size : Nat × Nat) : ToolState :=
  { s with pixmap := some size
           polygons := []
           current_polygon := []
           mouse_position := none }

/-- `ImageLabel.mousePressEvent` (lines 39-46): when a pixmap is
displayed and the left button was pressed, append `(x, y)` to
`current_polygon` provided `0 <= x < width` and `0 <= y < height`;
otherwise do nothing. -/
def mousePressEvent (s : ToolState) (leftButton : Bool) (x y : Int) :
    ToolState :=
  match s.pixmap with
  | some (w, h) =>
      if leftButton then
        if 0 ≤ x ∧ x < (w : Int) ∧ 0 ≤ y ∧ y < (h : Int) then
          { s with current_polygon := s.current_polygon ++ [(x, y)] }
        else s
      else s
  | none => s

/-- The scale factor computed in `load_image` (line 185):
`min(1920 / width, 1080 / height, 1.0)`, with the Python float division
modelled as exact rational division. -/
def scale_factor (width height : Nat) : ℚ :=
  min (min ((1920 : ℚ) / width) ((1080 : ℚ) / height)) 1

/-- The resized dimensions computed in `load_image` (line 186):
`int(width * scale_factor), int(height * scale_factor)`. Python `int()`
truncates toward zero; both products are nonnegative, so this is the
floor. -/
def new_size (width height : Nat) : Nat × Nat :=
  (⌊(width : ℚ) * scale_factor width height⌋.toNat,
   ⌊(height : ℚ) * scale_factor width height⌋.toNat)

/-- `SegmentationTool.load_image` (lines 174-189). The external decode
step `cv2.imread` is passed in as its result: `none` when the file could
not be decoded, otherwise the original image dimensions
`(width, height)`. Note the source assigns `current_image_path` before
the `image is None` check; on decode failure it shows a warning and
returns, leaving the rest of the state untouched. On success it rescales
and calls `setImage`. -/
def load_image (s : ToolState) (file_path : String)
    (decoded : Option (Nat × Nat)) : ToolState × Option ToolError :=
  let s1 := { s with current_image_path := some file_path }
  match decoded with
  | none => (s1, some .decodeError)
  | some (w, h) => (setImage s1 (new_size w h), none)

/-- `SegmentationTool.undo_last_point` (lines 199-203): pop the last
point of `current_polygon` when it is non-empty, otherwise do
nothing. -/
def undo_last_point (s : ToolState) : ToolState :=
  if s.current_polygon = [] then s
  else { s with current_polygon := s.current_polygon.dropLast }

/-- `SegmentationTool.finalize_polygon` (lines 211-222): with fewer than
3 points show a warning and return with the state unchanged; otherwise
append `{"points": current_polygon.copy()}` to `polygons` and clear
`current_polygon`. -/
def finalize_polygon (s : ToolState) : ToolState × Option ToolError :=
  if s.current_polygon.length < 3 then (s, some .insufficientPoints)
  else
    ({ s with polygons := s.polygons ++ [⟨s.current_polygon⟩]
              current_polygon := [] }, none)

/-- C1: for an in-progress sequence of length at least 3,
`finalize_polygon` appends exactly one polygon whose point order is the
in-progress order, clears the in-progress sequence, and reports no
error. -/
theorem finalize_appends_one_polygon (s : ToolState)
    (h : 3 ≤ s.current_polygon.length) :
    finalize_polygon s =
      ({ s with polygons := s.polygons ++ [⟨s.current_polygon⟩]
                current_polygon := [] }, none) := by
  simp [finalize_polygon, Nat.not_lt.mpr h]

/-- A concrete run of `finalize_appends_one_polygon`: a triangle is
finalized from a state that already holds one polygon. -/
theorem finalize_appends_one_polygon_witness :
    finalize_polygon
      { current_image_path := some "a.png"
        pixmap := some (10, 10)
        polygons := [⟨[(0, 0), (2, 0), (2, 2)]⟩]
        current_polygon := [(1, 1), (4, 1), (4, 4), (1, 4)]
        mouse_position := none } =
      ({ current_image_path := some "a.png"
         pixmap := some (10, 10)
         polygons := [⟨[(0, 0), (2, 0), (2, 2)]⟩,
                      ⟨[(1, 1), (4, 1), (4, 4), (1, 4)]⟩]
         current_polygon := []
         mouse_position := none }, none) :=
  finalize_appends_one_polygon _ (by decide)

/-- C2: for an in-progress sequence of fewer than 3 points,
`finalize_polygon` reports `insufficientPoints` and leaves the whole
state (in particular `polygons` and `current_polygon`) unchanged. -/
theorem finalize_insufficient_points (s : ToolState)
    (h : s.current_polygon.length < 3) :
    finalize_polygon s = (s, some .insufficientPoints) := by
  simp [finalize_polygon, h]

/-- A concrete run of `finalize_insufficient_points` on a two-point
sequence. -/
theorem finalize_insufficient_points_witness :
    finalize_polygon
      { current_image_path := some "a.png"
        pixmap := some (10, 10)
        polygons := [⟨[(0, 0), (2, 0), (2, 2)]⟩]
        current_polygon := [(1, 1), (4, 1)]
        mouse_position := none } =
      ({ current_image_path := some "a.png"
         pixmap := some (10, 10)
         polygons := [⟨[(0, 0), (2, 0), (2, 2)]⟩]
         current_polygon := [(1, 1), (4, 1)]
         mouse_position := none }, some .insufficientPoints) :=
  finalize_insufficient_points _ (by decide)

/-- C3: successfully loading a new image resets the editor to a fresh
idle state: `setImage` clears both the finalized polygon list and the
in-progress sequence, whatever was drawn on the previous image. -/
theorem load_image_resets_editor (s : ToolState) (file_path : String)
    (wh : Nat × Nat) :
    (load_image s file_path (some wh)).1.polygons = [] ∧
    (load_image s file_path (some wh)).1.current_polygon = [] := by
  obtain ⟨w, h⟩ := wh
  simp [load_image, setImage]

/-- C4 counterexample: on decode failure `load_image` does change the
current image path. Starting on `a.png` with one finalized polygon,
loading `broken.png` whose decode fails leaves the pixmap and polygon
state alone but moves `current_image_path` to `broken.png`. -/
theorem load_image_decode_failure_changes_path :
    (load_image
      { current_image_path := some "a.png"
        pixmap := some (10, 10)
        polygons := [⟨[(0, 0), (2, 0), (2, 2)]⟩]
        current_polygon := []
        mouse_position := none } "broken.png" none).1.current_image_path
      = some "broken.png" ∧
    some "broken.png" ≠ some "a.png" := by
  constructor
  · rfl
  · decide

/-- C4 amended: when decoding fails, `load_image` reports the error and
leaves the displayed image and the polygon state unchanged, but the
current image path has already been reassigned to the new (failed) path
before the decode check, so it is not unchanged. -/
theorem load_image_decode_failure (s : ToolState) (file_path : String) :
    load_image s file_path none =
      ({ s with current_image_path := some file_path },
       some .decodeError) := by
  simp [load_image]

/-- C5 counterexample: the display size is computed with `int()`
truncation, not rounding. For a 4000x3001 source the scale factor is
1080/3001 and the exact product 4000 * 1080/3001 = 1439.52...; the code
yields width 1439 while rounding would yield 1440. -/
theorem new_size_truncates_not_rounds :
    (new_size 4000 3001).1 = 1439 ∧
    round ((4000 : ℚ) * scale_factor 4000 3001) = 1440 := by
  constructor
  · norm_num [new_size, scale_factor]
    decide
  · rw [round_eq]
    norm_num [scale_factor]

/-- C5 amended: the scale factor is
`min(1920 / width, 1080 / height, 1.0)` (so the display never upscales
past native resolution), the display size is the *truncation* of
`originalSize * scaleFactor` toward zero (Python `int()`), and a
4000x3000 source yields display size (1440, 1080). -/
theorem display_size_spec (w h : Nat) (hw : 0 < w) (hh : 0 < h) :
    scale_factor w h = min (min ((1920 : ℚ) / w) ((1080 : ℚ) / h)) 1 ∧
    new_size w h =
      (⌊(w : ℚ) * scale_factor w h⌋.toNat,
       ⌊(h : ℚ) * scale_factor w h⌋.toNat) ∧
    (new_size w h).1 ≤ w ∧ (new_size w h).2 ≤ h ∧
    new_size 4000 3000 = (1440, 1080) := by
  have hsf : scale_factor w h ≤ 1 := min_le_right _ _
  refine ⟨rfl, rfl, ?_, ?_, ?_⟩
  · have hle : (w : ℚ) * scale_factor w h ≤ w := by
      calc (w : ℚ) * scale_factor w h ≤ (w : ℚ) * 1 :=
            mul_le_mul_of_nonneg_left hsf (by positivity)
        _ = w := mul_one _
    have hfloor : ⌊(w : ℚ) * scale_factor w h⌋ ≤ (w : ℤ) :=
      (Int.floor_le_floor hle).trans_eq (Int.floor_natCast w)
    calc (new_size w h).1 = ⌊(w : ℚ) * scale_factor w h⌋.toNat := rfl
      _ ≤ ((w : ℤ)).toNat := Int.toNat_le_toNat hfloor
      _ = w := Int.toNat_natCast w
  · have hle : (h : ℚ) * scale_factor w h ≤ h := by
      calc (h : ℚ) * scale_factor w h ≤ (h : ℚ) * 1 :=
            mul_le_mul_of_nonneg_left hsf (by positivity)
        _ = h := mul_one _
    have hfloor : ⌊(h : ℚ) * scale_factor w h⌋ ≤ (h : ℤ) :=
      (Int.floor_le_floor hle).trans_eq (Int.floor_natCast h)
    calc (new_size w h).2 = ⌊(h : ℚ) * scale_factor w h⌋.toNat := rfl
      _ ≤ ((h : ℤ)).toNat := Int.toNat_le_toNat hfloor
      _ = h := Int.toNat_natCast h
  · norm_num [new_size, scale_factor, Prod.ext_iff]
    decide

/-- A concrete run of `display_size_spec` at 4000x3000. -/
theorem display_size_spec_witness :
    new_size 4000 3000 = (1440, 1080) ∧ (new_size 4000 3000).1 ≤ 4000 :=
  ⟨(display_size_spec 4000 3000 (by decide) (by decide)).2.2.2.2,
   (display_size_spec 4000 3000 (by decide) (by decide)).2.2.1⟩

/-- C7: with a pixmap displayed, a left click inside
`[0, width) x [0, height)` appends the point to the in-progress
sequence; a click outside is a silent no-op; in either case the
finalized polygon list is untouched. -/
theorem mouse_press_point_capture (s : ToolState) (w h : Nat) (x y : Int)
    (hpix : s.pixmap = some (w, h)) :
    (mousePressEvent s true x y).polygons = s.polygons ∧
    ((0 ≤ x ∧ x < (w : Int) ∧ 0 ≤ y ∧ y < (h : Int)) →
      (mousePressEvent s true x y).current_polygon =
        s.current_polygon ++ [(x, y)]) ∧
    (¬ (0 ≤ x ∧ x < (w : Int) ∧ 0 ≤ y ∧ y < (h : Int)) →
      mousePressEvent s true x y = s) := by
  by_cases hin : 0 ≤ x ∧ x < (w : Int) ∧ 0 ≤ y ∧ y < (h : Int) <;>
    simp [mousePressEvent, hpix, hin]

/-- A concrete run of `mouse_press_point_capture`: an in-bounds click at
(3, 4) on a 10x10 pixmap. -/
theorem mouse_press_point_capture_witness :
    (mousePressEvent
      { current_image_path := some "a.png"
        pixmap := some (10, 10)
        polygons := [⟨[(0, 0), (2, 0), (2, 2)]⟩]
        current_polygon := [(1, 1)]
        mouse_position := none } true 3 4).polygons =
      [⟨[(0, 0), (2, 0), (2, 2)]⟩] ∧
    (mousePressEvent
      { current_image_path := some "a.png"
        pixmap := some (10, 10)
        polygons := [⟨[(0, 0), (2, 0), (2, 2)]⟩]
        current_polygon := [(1, 1)]
        mouse_position := none } true 3 4).current_polygon =
      [(1, 1), (3, 4)] := by
  obtain ⟨h1, h2, _⟩ := mouse_press_point_capture
    { current_image_path := some "a.png"
      pixmap := some (10, 10)
      polygons := [⟨[(0, 0), (2, 0), (2, 2)]⟩]
      current_polygon := [(1, 1)]
      mouse_position := none } 10 10 3 4 rfl
  exact ⟨h1, (h2 (by decide)).trans rfl⟩

/-- `undo_last_point` always maps `current_polygon` to its `dropLast`
(the guard only skips a pop on the empty list, where `dropLast` is also
the identity). -/
lemma undo_last_point_current (s : ToolState) :
    (undo_last_point s).current_polygon = s.current_polygon.dropLast := by
  by_cases h : s.current_polygon = [] <;> simp [undo_last_point, h]

/-- `undo_last_point` never touches the finalized polygon list. -/
lemma undo_last_point_polygons (s : ToolState) :
    (undo_last_point s).polygons = s.polygons := by
  by_cases h : s.current_polygon = [] <;> simp [undo_last_point, h]

/-- Iterating `dropLast` `k` times on a list of length at least `k`
yields the prefix that drops the last `k` elements. -/
lemma dropLast_iterate {α : Type} :
    ∀ (k : Nat) (l : List α), k ≤ l.length →
      List.dropLast^[k] l = l.take (l.length - k)
  | 0, l, _ => by simp
  | (k + 1), l, h => by
      rw [Function.iterate_succ_apply]
      have h1 : k ≤ l.dropLast.length := by
        rw [List.length_dropLast]; omega
      rw [dropLast_iterate k l.dropLast h1, List.length_dropLast,
        List.dropLast_eq_take, List.take_take]
      congr 1
      omega

/-- Iterating `undo_last_point` iterates `dropLast` on the in-progress
sequence and preserves the finalized polygon list. -/
lemma undo_last_point_iterate_state (k : Nat) (s : ToolState) :
    (undo_last_point^[k] s).current_polygon =
      List.dropLast^[k] s.current_polygon ∧
    (undo_last_point^[k] s).polygons = s.polygons := by
  induction k generalizing s with
  | zero => simp
  | succ k ih =>
      rw [Function.iterate_succ_apply, Function.iterate_succ_apply]
      obtain ⟨h1, h2⟩ := ih (undo_last_point s)
      exact ⟨by rw [h1, undo_last_point_current],
             by rw [h2, undo_last_point_polygons]⟩

/-- C8: applying `undo_last_point` `k` times to an in-progress sequence
of length `n >= k` leaves the length-`(n-k)` prefix in original order
(and never touches finalized polygons); on an empty in-progress
sequence `undo_last_point` is a no-op, not an error. -/
theorem undo_last_point_repeated (s : ToolState) (k : Nat)
    (h : k ≤ s.current_polygon.length) :
    (undo_last_point^[k] s).current_polygon =
      s.current_polygon.take (s.current_polygon.length - k) ∧
    (undo_last_point^[k] s).polygons = s.polygons ∧
    (s.current_polygon = [] → undo_last_point s = s) := by
  obtain ⟨h1, h2⟩ := undo_last_point_iterate_state k s
  refine ⟨?_, h2, ?_⟩
  · rw [h1, dropLast_iterate k _ h]
  · intro he
    simp [undo_last_point, he]

/-- A concrete run of `undo_last_point_repeated`: undoing twice on a
three-point in-progress sequence. -/
theorem undo_last_point_repeated_witness :
    2 ≤ ([(0, 0), (5, 0), (5, 5)] : List Point).length ∧
    (undo_last_point^[2]
      { current_image_path := some "a.png"
        pixmap := some (10, 10)
        polygons := [⟨[(0, 0), (2, 0), (2, 2)]⟩]
        current_polygon := [(0, 0), (5, 0), (5, 5)]
        mouse_position := none }).current_polygon =
      ([(0, 0), (5, 0), (5, 5)] : List Point).take (3 - 2) ∧
    (undo_last_point^[2]
      { current_image_path := some "a.png"
        pixmap := some (10, 10)
        polygons := [⟨[(0, 0), (2, 0), (2, 2)]⟩]
        current_polygon := [(0, 0), (5, 0), (5, 5)]
        mouse_position := none }).polygons =
      [⟨[(0, 0), (2, 0), (2, 2)]⟩] := by
  refine ⟨by decide, ?_, ?_⟩
  · exact (undo_last_point_repeated
      { current_image_path := some "a.png"
        pixmap := some (10, 10)
        polygons := [⟨[(0, 0), (2, 0), (2, 2)]⟩]
        current_polygon := [(0, 0), (5, 0), (5, 5)]
        mouse_position := none } 2 (by decide)).1
  · exact (undo_last_point_repeated
      { current_image_path := some "a.png"
        pixmap := some (10, 10)
        polygons := [⟨[(0, 0), (2, 0), (2, 2)]⟩]
        current_polygon := [(0, 0), (5, 0), (5, 5)]
        mouse_position := none } 2 (by decide)).2.1

/-- Modelled from the spec: the polygon fill in `save_mask` (line 250)
is performed by the external library call `cv2.fillPoly`, whose
implementation is not part of this repository. The spec defines the fill
as even-odd scanline fill with boundary pixels included. The edge list
of a polygon connects consecutive points, the last implicitly back to
the first. -/
def polygonEdges (ps : List Point) : List (Point × Point) :=
  ps.zip (ps.rotate 1)

/-- Modelled from the spec: a pixel lies exactly on the edge from `a`
to `b` when it is collinear with the edge and within its bounding box
(integer arithmetic, exact). -/
def onSegment (p a b : Point) : Bool :=
  decide ((b.1 - a.1) * (p.2 - a.2) = (b.2 - a.2) * (p.1 - a.1)) &&
  decide (min a.1 b.1 ≤ p.1) && decide (p.1 ≤ max a.1 b.1) &&
  decide (min a.2 b.2 ≤ p.2) && decide (p.2 ≤ max a.2 b.2)

/-- Modelled from the spec: the even-odd crossing test. The horizontal
ray from `p` toward +x crosses the edge from `a` to `b` when the edge
spans the ray's height (half-open, so shared vertices are counted once)
and the crossing point lies strictly to the right of `p`. The division
in the crossing abscissa is cleared by cross-multiplication, with the
inequality direction fixed by the sign of `b.2 - a.2`. -/
def crossesRay (p a b : Point) : Bool :=
  if a.2 ≤ p.2 ∧ ¬ b.2 ≤ p.2 then
    decide ((p.1 - a.1) * (b.2 - a.2) < (p.2 - a.2) * (b.1 - a.1))
  else if b.2 ≤ p.2 ∧ ¬ a.2 ≤ p.2 then
    decide ((p.1 - a.1) * (b.2 - a.2) > (p.2 - a.2) * (b.1 - a.1))
  else
    false

/-- Modelled from the spec: even-odd membership — a pixel is inside a
polygon when the ray from it crosses the boundary an odd number of
times. -/
def insideEvenOdd (ps : List Point) (p : Point) : Bool :=
  (polygonEdges ps).countP (fun e => crossesRay p e.1 e.2) % 2 == 1

/-- Modelled from the spec: a pixel is set when some polygon of the list
contains it (even-odd interior or exactly on an edge); fills from later
polygons are additive. -/
def pixelOn (polys : List (List Point)) (p : Point) : Bool :=
  polys.any (fun ps =>
    insideEvenOdd ps p ||
    (polygonEdges ps).any (fun e => onSegment p e.1 e.2))

/-- Modelled from the spec: the rasterizer behind `save_mask` (lines
240-250) — a height x width mask, initialized to 0, with every pixel
belonging to some polygon set to 255. Row `y`, column `x` of the result
is the pixel at display coordinate `(x, y)`. -/
def rasterize (polys : List (List Point)) (width height : Nat) :
    List (List Nat) :=
  (List.range height).map (fun y =>
    (List.range width).map (fun x =>
      if pixelOn polys ((x : Int), (y : Int)) then 255 else 0))

/-- C6: rasterizing the rectangle [(0,0),(4,0),(4,4),(0,4)] into a
10x10 mask sets exactly the 5x5 block [0,4]x[0,4] (edge pixels
included) to 255, leaves every other pixel 0, and produces only the
values 0 and 255. -/
theorem rasterize_rectangle :
    rasterize [[(0, 0), (4, 0), (4, 4), (0, 4)]] 10 10 =
      (List.range 10).map (fun y =>
        (List.range 10).map (fun x =>
          if x ≤ 4 ∧ y ≤ 4 then 255 else 0)) ∧
    ∀ row ∈ rasterize [[(0, 0), (4, 0), (4, 4), (0, 4)]] 10 10,
      ∀ v ∈ row, v = 0 ∨ v = 255 := by
  decide

/-- Modelled from the spec: the structured record produced by the
geometry exporter. No geometry exporter appears in the source file (it
only imports `json`); the spec describes `exportGeometry` as a record
with fields `image` (string path) and `polygons` (list of objects with a
`points` field of `[x, y]` integer pairs). `JValue` is the usual tree of
such records. -/
inductive JValue where
  | jstr : String → JValue
  | jnum : Int → JValue
  | jarr : List JValue → JValue
  | jobj : List (String × JValue) → JValue

/-- Modelled from the spec: a point exported as a `[x, y]` integer
pair. -/
def encodePoint (p : Point) : JValue :=
  .jarr [.jnum p.1, .jnum p.2]

/-- Modelled from the spec: a polygon exported as an object with its
ordered `points` list. -/
def encodePolygon (ps : List Point) : JValue :=
  .jobj [("points", .jarr (ps.map encodePoint))]

/-- Modelled from the spec: `exportGeometry` — the record with the
source image reference and the ordered polygon list. -/
def exportGeometry (image : String) (polys : List (List Point)) :
    JValue :=
  .jobj [("image", .jstr image), ("polygons", .jarr (polys.map encodePolygon))]

/-- Modelled from the spec: re-parsing a `[x, y]` pair. -/
def parsePoint : JValue → Option Point
  | .jarr [.jnum x, .jnum y] => some (x, y)
  | _ => none

/-- Modelled from the spec: re-parsing a polygon object. -/
def parsePolygon : JValue → Option (List Point)
  | .jobj [("points", .jarr vs)] => vs.mapM parsePoint
  | _ => none

/-- Modelled from the spec: re-parsing a full geometry record back into
the image reference and the ordered point lists. -/
def parseGeometry : JValue → Option (String × List (List Point))
  | .jobj [("image", .jstr img), ("polygons", .jarr vs)] =>
      (vs.mapM parsePolygon).map (fun ps => (img, ps))
  | _ => none

/-- Mapping an encoder and then traversing with an inverse decoder
recovers the original list. -/
lemma mapM_map_of_inverse {α β : Type} (f : α → β) (g : β → Option α)
    (hfg : ∀ a, g (f a) = some a) :
    ∀ l : List α, (l.map f).mapM g = some l
  | [] => rfl
  | a :: l => by
      simp only [List.map_cons, List.mapM_cons, hfg a,
        mapM_map_of_inverse f g hfg l]
      rfl

/-- Decoding inverts encoding for a single polygon. -/
lemma parsePolygon_encodePolygon (ps : List Point) :
    parsePolygon (encodePolygon ps) = some ps := by
  show (ps.map encodePoint).mapM parsePoint = some ps
  exact mapM_map_of_inverse encodePoint parsePoint (fun p => rfl) ps

/-- C9: `exportGeometry` followed by re-parsing reproduces the image
reference and exactly the same ordered integer point lists (lossless
round-trip). -/
theorem export_geometry_round_trip (image : String)
    (polys : List (List Point)) :
    parseGeometry (exportGeometry image polys) = some (image, polys) := by
  show ((polys.map encodePolygon).mapM parsePolygon).map
      (fun ps => (image, ps)) = some (image, polys)
  rw [mapM_map_of_inverse encodePolygon parsePolygon
    parsePolygon_encodePolygon polys]
  rfl

namespace Alias

/-- The reference semantics of the Python lists in `ImageLabel`:
`cells` is a heap of list objects, `polygonRefs` holds (in order) the
references stored in `self.polygons` via each entry's `points` field,
and `currentRef` is the reference held by `self.current_polygon`. This
model distinguishes `current_polygon.copy()` (allocating a fresh cell)
from storing the reference itself. -/
structure LabelState where
  cells : List (List Point)
  polygonRefs : List Nat
  currentRef : Nat

/-- Dereference a cell of the heap. -/
def getCell (s : LabelState) (r : Nat) : List Point :=
  s.cells.getD r []

/-- The references are well formed: the in-progress list is an
allocated object and is not the object of any finalized polygon. -/
def WF (s : LabelState) : Prop :=
  s.currentRef < s.cells.length ∧ ∀ r ∈ s.polygonRefs, r ≠ s.currentRef

/-- The editing operations that mutate the in-progress list in place:
`mousePressEvent` appending an accepted point (line 45),
`undo_last_point` popping (line 202), and `current_polygon.clear()` as
run by `setImage` (line 35) and `finalize_polygon` (line 221). -/
inductive EditOp where
  | press (x y : Int)
  | undoPoint
  | clearCurrent

/-- In-place mutation of the object referenced by `current_polygon`. -/
def applyOp (s : LabelState) : EditOp → LabelState
  | .press x y =>
      { s with cells :=
          s.cells.set s.currentRef (getCell s s.currentRef ++ [(x, y)]) }
  | .undoPoint =>
      { s with cells :=
          s.cells.set s.currentRef (getCell s s.currentRef).dropLast }
  | .clearCurrent =>
      { s with cells := s.cells.set s.currentRef [] }

/-- Run a sequence of editing operations. -/
def applyOps (s : LabelState) (ops : List EditOp) : LabelState :=
  ops.foldl applyOp s

/-- `finalize_polygon` (lines 211-222) under reference semantics: with
at least 3 points, `current_polygon.copy()` allocates a fresh cell
holding the same points, the new polygon stores a reference to that
fresh cell, and `current_polygon.clear()` then empties the original
in-place. -/
def finalize_polygon (s : LabelState) : LabelState :=
  if (getCell s s.currentRef).length < 3 then s
  else
    { cells := (s.cells ++ [getCell s s.currentRef]).set s.currentRef []
      polygonRefs := s.polygonRefs ++ [s.cells.length]
      currentRef := s.currentRef }

/-- Setting one cell leaves every other cell unchanged. -/
lemma getD_set_ne (l : List (List Point)) (i r : Nat)
    (v : List Point) (h : r ≠ i) :
    (l.set i v).getD r [] = l.getD r [] := by
  rw [List.getD_eq_getElem?_getD, List.getD_eq_getElem?_getD,
    List.getElem?_set_ne (Ne.symm h)]

/-- A single editing operation only mutates the in-progress cell. -/
lemma getCell_applyOp (s : LabelState) (op : EditOp) (r : Nat)
    (h : r ≠ s.currentRef) :
    getCell (applyOp s op) r = getCell s r := by
  cases op <;> exact getD_set_ne _ _ _ _ h

/-- Editing operations do not change which objects the finalized
polygons and the in-progress list reference. -/
lemma applyOp_refs (s : LabelState) (op : EditOp) :
    (applyOp s op).currentRef = s.currentRef ∧
    (applyOp s op).polygonRefs = s.polygonRefs := by
  cases op <;> exact ⟨rfl, rfl⟩

/-- A whole sequence of editing operations leaves every cell other than
the in-progress one unchanged. -/
lemma getCell_applyOps (ops : List EditOp) :
    ∀ (s : LabelState) (r : Nat), r ≠ s.currentRef →
      getCell (applyOps s ops) r = getCell s r := by
  induction ops with
  | nil => intro s r _; rfl
  | cons op ops ih =>
      intro s r h
      have hcur := (applyOp_refs s op).1
      calc getCell (applyOps s (op :: ops)) r
          = getCell (applyOps (applyOp s op) ops) r := rfl
        _ = getCell (applyOp s op) r := ih _ r (by rw [hcur]; exact h)
        _ = getCell s r := getCell_applyOp s op r h

/-- C10: after a successful finalize, the stored polygon is an
independent copy: the freshly finalized polygon holds exactly the
points of the in-progress sequence at the moment of finalize, and no
subsequent point capture, `undo_last_point`, or clearing of the
in-progress list ever alters the points of any finalized polygon. -/
theorem finalized_polygon_is_independent_copy (s : LabelState)
    (ops : List EditOp) (hwf : WF s)
    (h3 : 3 ≤ (getCell s s.currentRef).length) :
    getCell (finalize_polygon s) s.cells.length =
      getCell s s.currentRef ∧
    ∀ r ∈ (finalize_polygon s).polygonRefs,
      getCell (applyOps (finalize_polygon s) ops) r =
        getCell (finalize_polygon s) r := by
  obtain ⟨hlt, hrefs⟩ := hwf
  have hne : (s.cells.length : Nat) ≠ s.currentRef := by omega
  have hfin : finalize_polygon s =
      { cells := (s.cells ++ [getCell s s.currentRef]).set s.currentRef []
        polygonRefs := s.polygonRefs ++ [s.cells.length]
        currentRef := s.currentRef } := by
    rw [finalize_polygon, if_neg (Nat.not_lt.mpr h3)]
  constructor
  · rw [hfin]
    show ((s.cells ++ [getCell s s.currentRef]).set
        s.currentRef []).getD s.cells.length [] = getCell s s.currentRef
    rw [getD_set_ne _ _ _ _ hne, List.getD_eq_getElem?_getD,
      List.getElem?_concat_length]
    rfl
  · intro r hr
    have hrne : r ≠ (finalize_polygon s).currentRef := by
      rw [hfin] at hr ⊢
      simp only [List.mem_append, List.mem_singleton] at hr
      rcases hr with hr | hr
      · exact hrefs r hr
      · rw [hr]; exact hne
    exact getCell_applyOps ops (finalize_polygon s) r hrne

/-- A concrete run of `finalized_polygon_is_independent_copy`: one heap
cell holding a triangle is finalized, then the in-progress list is
cleared and a new point is captured; the finalized polygon's cell is
untouched. -/
theorem finalized_polygon_is_independent_copy_witness :
    getCell
      (finalize_polygon
        { cells := [[(0, 0), (3, 0), (3, 3)]]
          polygonRefs := []
          currentRef := 0 }) 1 = [(0, 0), (3, 0), (3, 3)] ∧
    ∀ r ∈ (finalize_polygon
        { cells := [[(0, 0), (3, 0), (3, 3)]]
          polygonRefs := []
          currentRef := 0 }).polygonRefs,
      getCell
        (applyOps
          (finalize_polygon
            { cells := [[(0, 0), (3, 0), (3, 3)]]
              polygonRefs := []
              currentRef := 0 })
          [.clearCurrent, .press 7 7]) r =
      getCell
        (finalize_polygon
          { cells := [[(0, 0), (3, 0), (3, 3)]]
            polygonRefs := []
            currentRef := 0 }) r := by
  have h := finalized_polygon_is_independent_copy
    { cells := [[(0, 0), (3, 0), (3, 3)]]
      polygonRefs := []
      currentRef := 0 }
    [.clearCurrent, .press 7 7]
    ⟨by decide, by decide⟩ (by decide)
  exact ⟨h.1, h.2⟩

end Alias
